import Mathlib

/-!
Verification of the crowsight repository's specification.

Two layers are embedded here:

* `payments` — a shallow embedding of the Go HTTP handler in
  `src/examples/my_project/services/payments/processor.go`, and of the Java
  model class `src/examples/my_project/models/Order.java`.  The JSON decode
  step and the HTTP transport are abstracted: the handler is a function of
  the decode result, and its reply is a structured value recording status
  code, content type and body.  Go `float64` / Java `double` amounts are
  modelled with exact rationals.

* `Webhook` — the specification's rewrite target (spec §2–§4): Request
  Validator, Idempotency Ledger, Handler and Response Encoder.  None of this
  component exists under `src/` (the spec states the original handler
  performs no idempotency check at all), so it is modelled from the spec's
  own contracts.  Raw request bytes are abstracted to their parse outcome
  (`RawBody`), wall-clock time to a natural-number timestamp, and the
  spec-mandated linearizability of `tryAccept` lets concurrent executions be
  analysed as arbitrary sequential interleavings (`runSeq`).
-/

namespace payments

/-- The decoded request structure of processor.go (`PaymentRequest`).
Go's `float64` amount is modelled as an exact rational. -/
structure PaymentRequest where
  OrderID : String
  Amount : ℚ
deriving DecidableEq

/-- The response structure of processor.go (`PaymentResponse`). -/
structure PaymentResponse where
  Status : String
  Message : String
deriving DecidableEq

/-- The observable reply of the Go handler: either the `http.Error` path
(status code and plain-text message) or a JSON reply (status code,
Content-Type header value, encoded body).  A JSON reply carries code 200
because the handler never calls `WriteHeader`. -/
inductive GoResult where
  | httpError (code : ℕ) (msg : String)
  | jsonResp (code : ℕ) (contentType : String) (resp : PaymentResponse)
deriving DecidableEq

/-- Shallow embedding of `Processor` from processor.go.  Its input is the
result of `json.NewDecoder(r.Body).Decode(&req)`: `Except.error` when the
body fails to decode, `Except.ok req` otherwise.  On decode failure it
replies `http.Error(w, "Invalid request", http.StatusBadRequest)`; otherwise
it logs (out of scope) and replies with the fixed success body, setting
Content-Type to application/json. -/
def Processor (decoded : Except String PaymentRequest) : GoResult :=
  match decoded with
  | .error _ => .httpError 400 "Invalid request"
  | .ok _ => .jsonResp 200 "application/json" ⟨"success", "Payment processed"⟩

end payments

namespace models

/-- The Java `Order` entity (Order.java).  `double total` is modelled as an
exact rational and `LocalDate createdDate` as an abstract day number. -/
structure Order where
  id : String
  items : List String
  total : ℚ
  createdDate : ℕ
deriving DecidableEq

/-- Shallow embedding of `Order.calculateTotalWithTax`.  The method body is
`return total * (1 + taxRate);`; it assigns no field, so the post-state of
the receiver is passed through unchanged alongside the returned value. -/
def calculateTotalWithTax (o : Order) (taxRate : ℚ) : ℚ × Order :=
  (o.total * (1 + taxRate), o)

end models

namespace Webhook

/-- Modelled from the spec: the outcome status enum of §3 (`PaymentOutcome.status`);
no implementation of the rewrite target exists under `src/`. -/
inductive Status where
  | accepted
  | duplicate
  | rejected
deriving DecidableEq

/-- Modelled from the spec: `PaymentOutcome` of §3. -/
structure PaymentOutcome where
  status : Status
  message : String
deriving DecidableEq

/-- Modelled from the spec: the validation-error taxonomy of §4.1/§7. -/
inductive ValidationError where
  | MalformedPayload
  | InvalidField (field : String)
deriving DecidableEq

/-- Modelled from the spec: the parse outcome of a raw request body.  A body
is either not parseable into the expected structure, or yields an order_id
string and an amount. -/
inductive RawBody where
  | malformed
  | parsed (order_id : String) (amount : ℚ)
deriving DecidableEq

/-- Modelled from the spec: acceptance timestamps produced by `currentTime()`. -/
abbrev Timestamp := ℕ

/-- Modelled from the spec: the Idempotency Ledger of §3, a mapping from
order_id to acceptance timestamp, represented as an association list with
the most recent acceptance at the head. -/
abbrev IdempotencyLedger := List (String × Timestamp)

/-- Look up the recorded acceptance timestamp of an order_id. -/
def findEntry : IdempotencyLedger → String → Option Timestamp
  | [], _ => none
  | (k, t) :: rest, oid => if k = oid then some t else findEntry rest oid

/-- Modelled from the spec: `tryAccept(order_id, now) -> bool` of §4.2.
Atomically checks whether order_id is already recorded; if absent, records
it with timestamp `now` and returns true; if present, returns false without
mutation.  The returned ledger is the post-state. -/
def tryAccept (L : IdempotencyLedger) (order_id : String) (now : Timestamp) :
    Bool × IdempotencyLedger :=
  match findEntry L order_id with
  | some _ => (false, L)
  | none => (true, (order_id, now) :: L)

/-- Modelled from the spec: `validate(raw bytes)` of §4.1.  MalformedPayload
when the body cannot be parsed; InvalidField naming the field when order_id
is empty or amount ≤ 0. -/
def validate : RawBody → Except ValidationError (String × ℚ)
  | .malformed => .error .MalformedPayload
  | .parsed oid amt =>
    if oid = "" then .error (.InvalidField "order_id")
    else if amt ≤ 0 then .error (.InvalidField "amount")
    else .ok (oid, amt)

/-- Modelled from the spec: the error detail placed in the rejected
outcome's message (§7 and the §8 scenarios). -/
def errorDetail : ValidationError → String
  | .MalformedPayload => "MalformedPayload"
  | .InvalidField f => "InvalidField: " ++ f

/-- Modelled from the spec: `handle(raw bytes) -> PaymentOutcome` of §4.3,
with the ledger passed explicitly.  On ValidationError it rejects; otherwise
it consults `tryAccept` and reports accepted or duplicate. -/
def handle (L : IdempotencyLedger) (raw : RawBody) (now : Timestamp) :
    PaymentOutcome × IdempotencyLedger :=
  match validate raw with
  | .error e => (⟨.rejected, errorDetail e⟩, L)
  | .ok (oid, _) =>
    match tryAccept L oid now with
    | (true, L') => (⟨.accepted, "Payment processed"⟩, L')
    | (false, L') => (⟨.duplicate, "Order already processed"⟩, L')

/-- Modelled from the spec: the Response Encoder's status-code mapping of
§4.4. -/
def statusCode : Status → ℕ
  | .accepted => 200
  | .duplicate => 200
  | .rejected => 400

/-- Modelled from the spec: the serialized status string of §6. -/
def statusString : Status → String
  | .accepted => "accepted"
  | .duplicate => "duplicate"
  | .rejected => "rejected"

/-- Modelled from the spec: `encode(PaymentOutcome) -> (statusCode, bytes)`
of §4.4; the body is the structured `{status, message}` pair. -/
def encode (o : PaymentOutcome) : ℕ × (String × String) :=
  (statusCode o.status, (statusString o.status, o.message))

/-- Run a sequence of `handle` calls (raw body and timestamp per call),
threading the ledger, collecting the outcomes in order.  This is the
sequential semantics; by the linearizability required of `tryAccept` (§5) a
concurrent execution is one of these sequences. -/
def runSeq (L : IdempotencyLedger) :
    List (RawBody × Timestamp) → List PaymentOutcome × IdempotencyLedger
  | [] => ([], L)
  | (raw, now) :: rest =>
    let step := handle L raw now
    let tail := runSeq step.2 rest
    (step.1 :: tail.1, tail.2)

/-- Keys (order_ids) recorded in a ledger. -/
def keys (L : IdempotencyLedger) : List String := L.map Prod.fst

theorem findEntry_eq_none_iff (L : IdempotencyLedger) (oid : String) :
    findEntry L oid = none ↔ oid ∉ keys L := by
  induction L with
  | nil => simp [findEntry, keys]
  | cons e rest ih =>
    obtain ⟨k, t⟩ := e
    by_cases hk : k = oid
    · subst hk
      simp [findEntry, keys]
    · simp [findEntry, hk, keys, ih]
      tauto

theorem findEntry_mem_of_some (L : IdempotencyLedger) (oid : String) (t : Timestamp)
    (h : findEntry L oid = some t) : oid ∈ keys L := by
  by_contra hmem
  rw [← findEntry_eq_none_iff] at hmem
  rw [hmem] at h
  exact Option.noConfusion h

theorem findEntry_isSome_of_mem (L : IdempotencyLedger) (oid : String)
    (h : oid ∈ keys L) : ∃ t, findEntry L oid = some t := by
  cases he : findEntry L oid with
  | none => exact absurd ((findEntry_eq_none_iff L oid).mp he) (not_not_intro h)
  | some t => exact ⟨t, rfl⟩

/-- One `handle` call either leaves the ledger unchanged or conses exactly
one entry whose key was previously absent. -/
theorem handle_ledger_step (L : IdempotencyLedger) (raw : RawBody) (now : Timestamp) :
    (handle L raw now).2 = L ∨
    ∃ oid, oid ∉ keys L ∧ (handle L raw now).2 = (oid, now) :: L := by
  cases raw with
  | malformed => left; rfl
  | parsed oid amt =>
    by_cases h1 : oid = ""
    · left; simp [handle, validate, h1]
    · by_cases h2 : amt ≤ 0
      · left; simp [handle, validate, h1, h2]
      · cases he : findEntry L oid with
        | some t => left; simp [handle, validate, h1, h2, tryAccept, he]
        | none =>
          right
          exact ⟨oid, (findEntry_eq_none_iff L oid).mp he,
            by simp [handle, validate, h1, h2, tryAccept, he]⟩

theorem handle_keys_mono (L : IdempotencyLedger) (raw : RawBody) (now : Timestamp)
    (oid : String) (h : oid ∈ keys L) : oid ∈ keys (handle L raw now).2 := by
  rcases handle_ledger_step L raw now with hs | ⟨k, _, hs⟩
  · rw [hs]; exact h
  · rw [hs]; simp [keys] at h ⊢; tauto

theorem handle_findEntry_mono (L : IdempotencyLedger) (raw : RawBody) (now : Timestamp)
    (oid : String) (t : Timestamp) (h : findEntry L oid = some t) :
    findEntry (handle L raw now).2 oid = some t := by
  rcases handle_ledger_step L raw now with hs | ⟨k, hk, hs⟩
  · rw [hs]; exact h
  · rw [hs]
    have hne : k ≠ oid := fun he => hk (he ▸ findEntry_mem_of_some L oid t h)
    simp [findEntry, hne, h]

theorem handle_suffix (L : IdempotencyLedger) (raw : RawBody) (now : Timestamp) :
    L.IsSuffix (handle L raw now).2 := by
  rcases handle_ledger_step L raw now with hs | ⟨k, _, hs⟩
  · rw [hs]
  · rw [hs]; exact List.suffix_cons (k, now) L

theorem handle_nodup (L : IdempotencyLedger) (raw : RawBody) (now : Timestamp)
    (h : (keys L).Nodup) : (keys (handle L raw now).2).Nodup := by
  rcases handle_ledger_step L raw now with hs | ⟨k, hk, hs⟩
  · rw [hs]; exact h
  · rw [hs]
    have hkeys : keys ((k, now) :: L) = k :: keys L := rfl
    rw [hkeys]
    exact List.nodup_cons.mpr ⟨hk, h⟩

theorem runSeq_keys_mono (calls : List (RawBody × Timestamp))
    (L : IdempotencyLedger) (oid : String) (h : oid ∈ keys L) :
    oid ∈ keys (runSeq L calls).2 := by
  induction calls generalizing L with
  | nil => exact h
  | cons c rest ih =>
    obtain ⟨raw, now⟩ := c
    exact ih (handle L raw now).2 (handle_keys_mono L raw now oid h)

theorem runSeq_findEntry_mono (calls : List (RawBody × Timestamp))
    (L : IdempotencyLedger) (oid : String) (t : Timestamp)
    (h : findEntry L oid = some t) : findEntry (runSeq L calls).2 oid = some t := by
  induction calls generalizing L with
  | nil => exact h
  | cons c rest ih =>
    obtain ⟨raw, now⟩ := c
    exact ih (handle L raw now).2 (handle_findEntry_mono L raw now oid t h)

theorem runSeq_suffix (calls : List (RawBody × Timestamp)) (L : IdempotencyLedger) :
    L.IsSuffix (runSeq L calls).2 := by
  induction calls generalizing L with
  | nil => exact List.suffix_refl L
  | cons c rest ih =>
    obtain ⟨raw, now⟩ := c
    exact (handle_suffix L raw now).trans (ih (handle L raw now).2)

theorem runSeq_nodup (calls : List (RawBody × Timestamp)) (L : IdempotencyLedger)
    (h : (keys L).Nodup) : (keys (runSeq L calls).2).Nodup := by
  induction calls generalizing L with
  | nil => exact h
  | cons c rest ih =>
    obtain ⟨raw, now⟩ := c
    exact ih (handle L raw now).2 (handle_nodup L raw now h)

/-- A valid call records the order_id (or finds it already recorded). -/
theorem handle_valid_mem (L : IdempotencyLedger) (oid : String) (amt : ℚ)
    (now : Timestamp) (h1 : oid ≠ "") (h2 : 0 < amt) :
    oid ∈ keys (handle L (RawBody.parsed oid amt) now).2 := by
  by_cases hm : oid ∈ keys L
  · exact handle_keys_mono L _ now oid hm
  · have he : findEntry L oid = none := (findEntry_eq_none_iff L oid).mpr hm
    have h2' : ¬ amt ≤ 0 := not_le.mpr h2
    simp [handle, validate, h1, h2', tryAccept, he, keys]

/-- A valid call whose order_id is already recorded yields the duplicate
outcome and leaves the ledger unchanged. -/
theorem handle_valid_dup (L : IdempotencyLedger) (oid : String) (amt : ℚ)
    (now : Timestamp) (h1 : oid ≠ "") (h2 : 0 < amt) (hm : oid ∈ keys L) :
    handle L (RawBody.parsed oid amt) now =
      (⟨Status.duplicate, "Order already processed"⟩, L) := by
  obtain ⟨t, ht⟩ := findEntry_isSome_of_mem L oid hm
  have h2' : ¬ amt ≤ 0 := not_le.mpr h2
  simp [handle, validate, h1, h2', tryAccept, ht]

/-- A valid call whose order_id is absent yields the accepted outcome and
records the order_id. -/
theorem handle_valid_accept (L : IdempotencyLedger) (oid : String) (amt : ℚ)
    (now : Timestamp) (h1 : oid ≠ "") (h2 : 0 < amt) (hm : oid ∉ keys L) :
    handle L (RawBody.parsed oid amt) now =
      (⟨Status.accepted, "Payment processed"⟩, (oid, now) :: L) := by
  have he : findEntry L oid = none := (findEntry_eq_none_iff L oid).mpr hm
  have h2' : ¬ amt ≤ 0 := not_le.mpr h2
  simp [handle, validate, h1, h2', tryAccept, he]

/-- Once the order_id is recorded, a run of valid calls all carrying that
same order_id produces only duplicate outcomes and never changes the ledger. -/
theorem runSeq_same_oid_dup (oid : String) (h1 : oid ≠ "")
    (calls : List (ℚ × Timestamp)) (hpos : ∀ p ∈ calls, 0 < p.1)
    (L : IdempotencyLedger) (hm : oid ∈ keys L) :
    runSeq L (calls.map fun p => (RawBody.parsed oid p.1, p.2)) =
      (List.replicate calls.length
        ⟨Status.duplicate, "Order already processed"⟩, L) := by
  induction calls generalizing L with
  | nil => rfl
  | cons c rest ih =>
    obtain ⟨amt, now⟩ := c
    have hd := handle_valid_dup L oid amt now h1 (hpos ⟨amt, now⟩ (by simp)) hm
    have hrest := ih (fun p hp => hpos p (List.mem_cons_of_mem _ hp)) L hm
    simp [runSeq, hd, hrest, List.replicate]

/-- Claim C1: for every valid request (non-empty order_id, amount > 0), every
call to `handle` after the first call with the same order_id — with any
further calls interleaved in between — returns the duplicate outcome with
message "Order already processed", regardless of the amount supplied in the
later call. -/
theorem c1_subsequent_same_order_duplicate (L : IdempotencyLedger) (oid : String)
    (amt amt' : ℚ) (now now' : Timestamp) (calls : List (RawBody × Timestamp))
    (h1 : oid ≠ "") (h2 : 0 < amt) (h3 : 0 < amt') :
    (handle (runSeq (handle L (RawBody.parsed oid amt) now).2 calls).2
        (RawBody.parsed oid amt') now').1 =
      ⟨Status.duplicate, "Order already processed"⟩ := by
  have hm1 := handle_valid_mem L oid amt now h1 h2
  have hm2 := runSeq_keys_mono calls _ oid hm1
  rw [handle_valid_dup _ oid amt' now' h1 h3 hm2]

/-- Witness for C1 at a concrete instance. -/
theorem c1_subsequent_same_order_duplicate_witness :
    "ord-1" ≠ "" ∧ (0 : ℚ) < 42 ∧ (0 : ℚ) < 7 ∧
    (handle (runSeq (handle [] (RawBody.parsed "ord-1" 42) 0).2 []).2
        (RawBody.parsed "ord-1" 7) 1).1 =
      ⟨Status.duplicate, "Order already processed"⟩ :=
  ⟨by decide, by decide, by decide,
    c1_subsequent_same_order_duplicate [] "ord-1" 42 7 0 1 []
      (by decide) (by decide) (by decide)⟩

/-- Claim C2: for every valid request (non-empty order_id, amount > 0), the
first call to `handle` for that order_id returns the accepted outcome with
message "Payment processed", and the encoder delivers it with HTTP status
200. -/
theorem c2_first_call_accepted (L : IdempotencyLedger) (oid : String) (amt : ℚ)
    (now : Timestamp) (h1 : oid ≠ "") (h2 : 0 < amt) (h3 : oid ∉ keys L) :
    (handle L (RawBody.parsed oid amt) now).1 =
      ⟨Status.accepted, "Payment processed"⟩ ∧
    encode (handle L (RawBody.parsed oid amt) now).1 =
      (200, ("accepted", "Payment processed")) := by
  rw [handle_valid_accept L oid amt now h1 h2 h3]
  exact ⟨rfl, rfl⟩

/-- Witness for C2 at the spec's scenario input `{"order_id":"ord-1","amount":42.50}`
on an empty ledger. -/
theorem c2_first_call_accepted_witness :
    "ord-1" ≠ "" ∧ (0 : ℚ) < 85 / 2 ∧ "ord-1" ∉ keys [] ∧
    (handle [] (RawBody.parsed "ord-1" (85 / 2)) 0).1 =
      ⟨Status.accepted, "Payment processed"⟩ ∧
    encode (handle [] (RawBody.parsed "ord-1" (85 / 2)) 0).1 =
      (200, ("accepted", "Payment processed")) :=
  ⟨by decide, by simp, by simp [keys],
    c2_first_call_accepted [] "ord-1" (85 / 2) 0 (by decide) (by simp)
      (by simp [keys])⟩

/-- Claim C3: when N concurrent `handle` calls are issued with the same
order_id (all valid), exactly one caller receives the accepted outcome and
the other N−1 callers receive the duplicate outcome.  `tryAccept` is
required to be linearizable (§5), so a concurrent execution is analysed as
an arbitrary sequential interleaving: the theorem quantifies over every
order and every choice of per-call amounts and timestamps. -/
theorem c3_concurrent_one_accepted (L : IdempotencyLedger) (oid : String)
    (calls : List (ℚ × Timestamp)) (h1 : oid ≠ "")
    (hpos : ∀ p ∈ calls, 0 < p.1) (h3 : oid ∉ keys L) (hne : calls ≠ []) :
    (runSeq L (calls.map fun p => (RawBody.parsed oid p.1, p.2))).1.count
        ⟨Status.accepted, "Payment processed"⟩ = 1 ∧
    (runSeq L (calls.map fun p => (RawBody.parsed oid p.1, p.2))).1.count
        ⟨Status.duplicate, "Order already processed"⟩ = calls.length - 1 := by
  obtain ⟨c, rest, rfl⟩ := List.exists_cons_of_ne_nil hne
  obtain ⟨amt, now⟩ := c
  have hfirst := handle_valid_accept L oid amt now h1 (hpos ⟨amt, now⟩ (by simp)) h3
  have hmem : oid ∈ keys ((oid, now) :: L) := by simp [keys]
  have hrest := runSeq_same_oid_dup oid h1 rest
    (fun p hp => hpos p (List.mem_cons_of_mem _ hp)) ((oid, now) :: L) hmem
  simp [runSeq, hfirst, hrest, List.count_cons, List.count_replicate]

/-- Witness for C3: three concurrent calls with order ids "ord-1". -/
theorem c3_concurrent_one_accepted_witness :
    (runSeq [] ([((3 : ℚ), 0), (5, 1), (7, 2)].map
        fun p => (RawBody.parsed "ord-1" p.1, p.2))).1.count
        ⟨Status.accepted, "Payment processed"⟩ = 1 ∧
    (runSeq [] ([((3 : ℚ), 0), (5, 1), (7, 2)].map
        fun p => (RawBody.parsed "ord-1" p.1, p.2))).1.count
        ⟨Status.duplicate, "Order already processed"⟩ = 3 - 1 :=
  c3_concurrent_one_accepted [] "ord-1" [(3, 0), (5, 1), (7, 2)]
    (by decide) (by intro p hp; fin_cases hp <;> decide) (by simp [keys])
    (by decide)

/-- Claim C4: for every request body that cannot be parsed into the expected
structure, `handle` returns the rejected outcome, the encoder delivers HTTP
status 400, and the idempotency ledger is left unchanged. -/
theorem c4_malformed_rejected (L : IdempotencyLedger) (now : Timestamp) :
    handle L RawBody.malformed now =
      (⟨Status.rejected, "MalformedPayload"⟩, L) ∧
    (encode (handle L RawBody.malformed now).1).1 = 400 :=
  ⟨rfl, rfl⟩

/-- Claim C5: for every body that parses but has an empty order_id or an
amount ≤ 0, `handle` returns the rejected outcome naming the failing field,
delivered with HTTP status 400, and the ledger is left unchanged. -/
theorem c5_invalid_field_rejected (L : IdempotencyLedger) (oid : String)
    (amt : ℚ) (now : Timestamp) (h : oid = "" ∨ amt ≤ 0) :
    handle L (RawBody.parsed oid amt) now =
      (⟨Status.rejected,
        if oid = "" then "InvalidField: order_id" else "InvalidField: amount"⟩,
       L) ∧
    (encode (handle L (RawBody.parsed oid amt) now).1).1 = 400 := by
  by_cases h1 : oid = ""
  · subst h1
    exact ⟨rfl, rfl⟩
  · have h2 : amt ≤ 0 := h.resolve_left h1
    refine ⟨?_, ?_⟩ <;>
      simp [handle, validate, h1, h2, encode, statusCode, errorDetail]

/-- Witness for C5 at the spec's scenario input `{"order_id":"","amount":10}`. -/
theorem c5_invalid_field_rejected_witness :
    handle [] (RawBody.parsed "" 10) 0 =
      (⟨Status.rejected,
        if "" = "" then "InvalidField: order_id" else "InvalidField: amount"⟩,
       []) ∧
    (encode (handle [] (RawBody.parsed "" 10) 0).1).1 = 400 :=
  c5_invalid_field_rejected [] "" 10 0 (Or.inl rfl)

/-- Claim C6: `tryAccept(order_id, now)` checks whether order_id is already
recorded: if absent it records it with timestamp `now` and returns true; if
present it returns false and does not mutate the ledger. -/
theorem c6_tryAccept_correct (L : IdempotencyLedger) (oid : String)
    (now : Timestamp) :
    (oid ∉ keys L → tryAccept L oid now = (true, (oid, now) :: L)) ∧
    (oid ∈ keys L → tryAccept L oid now = (false, L)) := by
  constructor
  · intro h
    have he : findEntry L oid = none := (findEntry_eq_none_iff L oid).mpr h
    simp [tryAccept, he]
  · intro h
    obtain ⟨t, ht⟩ := findEntry_isSome_of_mem L oid h
    simp [tryAccept, ht]

/-- Witness for C6: a fresh order_id is recorded, a recorded one is refused. -/
theorem c6_tryAccept_correct_witness :
    tryAccept [] "ord-1" 5 = (true, [("ord-1", 5)]) ∧
    tryAccept [("ord-1", 5)] "ord-1" 9 = (false, [("ord-1", 5)]) :=
  ⟨(c6_tryAccept_correct [] "ord-1" 5).1 (by simp [keys]),
   (c6_tryAccept_correct [("ord-1", 5)] "ord-1" 9).2 (by simp [keys])⟩

/-- Claim C7: the Response Encoder maps accepted → 200, duplicate → 200 and
rejected → 400, and no other status code is ever produced. -/
theorem c7_encode_status_codes (o : PaymentOutcome) :
    (o.status = Status.accepted → (encode o).1 = 200) ∧
    (o.status = Status.duplicate → (encode o).1 = 200) ∧
    (o.status = Status.rejected → (encode o).1 = 400) ∧
    ((encode o).1 = 200 ∨ (encode o).1 = 400) := by
  obtain ⟨s, m⟩ := o
  cases s <;> simp [encode, statusCode]

/-- Witness for C7 at a concrete outcome. -/
theorem c7_encode_status_codes_witness :
    (encode ⟨Status.accepted, "Payment processed"⟩).1 = 200 :=
  (c7_encode_status_codes ⟨Status.accepted, "Payment processed"⟩).1 rfl

/-- Claim C8: the ledger only grows.  Across every sequence of `handle`
calls: the old ledger survives as a suffix of the new one (no entry is ever
removed), a recorded timestamp is never changed, and — keys being unique —
an entry for an order_id is created at most once. -/
theorem c8_ledger_only_grows (L : IdempotencyLedger)
    (calls : List (RawBody × Timestamp)) :
    L.IsSuffix (runSeq L calls).2 ∧
    (∀ oid t, findEntry L oid = some t →
      findEntry (runSeq L calls).2 oid = some t) ∧
    ((keys L).Nodup → (keys (runSeq L calls).2).Nodup) :=
  ⟨runSeq_suffix calls L,
   fun oid t h => runSeq_findEntry_mono calls L oid t h,
   fun h => runSeq_nodup calls L h⟩

/-- Witness for C8 at a concrete run. -/
theorem c8_ledger_only_grows_witness :
    findEntry (runSeq [("a", 0)] [(RawBody.parsed "b" 1, 5)]).2 "a" = some 0 ∧
    (keys (runSeq [("a", 0)] [(RawBody.parsed "b" 1, 5)]).2).Nodup :=
  ⟨(c8_ledger_only_grows [("a", 0)] [(RawBody.parsed "b" 1, 5)]).2.1 "a" 0 rfl,
   (c8_ledger_only_grows [("a", 0)] [(RawBody.parsed "b" 1, 5)]).2.2
     (by simp [keys])⟩

end Webhook

namespace payments

/-- Claim C9: for every request body that decodes as JSON into
`PaymentRequest` — including an empty JSON object (zero values), an empty
order_id, and a zero or negative amount — `Processor` replies with body
`{"status":"success","message":"Payment processed"}` and Content-Type
application/json; the status string is "success" for every decoded request,
so no per-field validation and no duplicate detection occurs. -/
theorem c9_processor_success_unconditionally (req : PaymentRequest) :
    Processor (Except.ok req) =
      GoResult.jsonResp 200 "application/json"
        ⟨"success", "Payment processed"⟩ :=
  rfl

end payments

namespace models

/-- Claim C10: for every `Order` and every taxRate,
`calculateTotalWithTax(taxRate)` returns `total * (1 + taxRate)` and leaves
every field of the order (id, items, total, createdDate) unchanged. -/
theorem c10_calculateTotalWithTax_frame (o : Order) (taxRate : ℚ) :
    (calculateTotalWithTax o taxRate).1 = o.total * (1 + taxRate) ∧
    (calculateTotalWithTax o taxRate).2.id = o.id ∧
    (calculateTotalWithTax o taxRate).2.items = o.items ∧
    (calculateTotalWithTax o taxRate).2.total = o.total ∧
    (calculateTotalWithTax o taxRate).2.createdDate = o.createdDate :=
  ⟨rfl, rfl, rfl, rfl, rfl⟩

end models
